import Mathlib

/-
Shallow embedding of the Data-Services-Tools workflow runner
(src/workflow_runner.py, with its config collaborator src/dslib/dsconfig.py).

Conventions of the embedding:
* The variable mapping (Python dict `convenience_variables`) is an
  association list `Vars := List (String × String)`; dict assignment is
  `updateVar` (replace the entry if the key is present, else append).
* The ini configuration is a `Config` record holding the numbered command
  directives as an association list keyed by the command number (ini keys
  are the canonical decimal strings `str(n)`, so keying by the integer is
  a faithful renaming) plus the optional named directives the runner reads.
* Process spawning is external: an execution environment is a function
  `exec : String → ExecResult` giving, for each command line, the stdout,
  stderr and exit code the shell produces for it.
* Python 2 `%`-formatting is modelled for the grammar the workflows use
  (documented at `interpGo`): `%(key)s` placeholders with parenthesis-free
  keys and `%%` escapes; any other use of `%` is a format error.  As in
  CPython, the key lookup happens as soon as the closing parenthesis is
  read, before the conversion character is checked.
* `sys.exit` / uncaught exceptions are modelled by explicit outcome types.
-/

abbrev Vars := List (String × String)

/-- Python dict assignment `d[k] = v` on the association-list model:
replace the binding if the key is present, otherwise append it. -/
def updateVar : Vars → String → String → Vars
  | [], k, v => [(k, v)]
  | (k', v') :: rest, k, v =>
    if k' = k then (k, v) :: rest else (k', v') :: updateVar rest k v

/-- Python's whitespace set for `str.strip()`: space, tab, newline,
carriage return, vertical tab, form feed. -/
def isPyWhite (c : Char) : Bool :=
  c = ' ' || c = '\t' || c = '\n' || c = '\r' || c = '\x0b' || c = '\x0c'

/-- `str.strip()` on the character-list level: drop leading and trailing
whitespace. -/
def stripList (l : List Char) : List Char :=
  ((l.dropWhile isPyWhite).reverse.dropWhile isPyWhite).reverse

/-- Python `s.strip()`. -/
def pyStrip (s : String) : String := String.mk (stripList s.data)

/-- Result of spawning one shell command: captured stdout, captured
stderr, and the process exit code. -/
structure ExecResult where
  stdout : String
  stderr : String
  exitCode : Int
deriving DecidableEq

/-- workflow_runner.py lines 51-58, the source's run-command helper: it
waits for the process, raises when stderr is non-empty (Python
truthiness of `err`) or the return code is non-zero, and otherwise
returns the stripped stdout. -/
def runCmd (r : ExecResult) : Except String String :=
  if r.stderr.length ≠ 0 ∨ r.exitCode ≠ 0 then
    .error (r.stdout ++ "\nUnexpected return code or value: "
            ++ toString r.exitCode ++ ", " ++ r.stderr)
  else
    .ok (pyStrip r.stdout)

/-- Errors of Python 2 `%`-formatting as used here: `KeyError` on a
placeholder key absent from the mapping, and any other formatting error
(`ValueError` in CPython, e.g. an unsupported conversion character). -/
inductive SubstError where
  | missingVariable (name : String)
  | badFormat
deriving DecidableEq

/-- Scanner state for `%`-formatting: ordinary text, just after a `%`,
inside a `%(key` (accumulating the key), or after `%(key)` holding the
looked-up value and expecting the conversion character. -/
inductive FmtMode where
  | text
  | afterPerc
  | inKey (acc : List Char)
  | conv (v : String)

/-- Python 2 `raw_cmd % convenience_variables` (workflow_runner.py line
63) restricted to the workflow template grammar: literal characters,
`%%` escapes, and `%(key)s` placeholders whose keys contain no
parenthesis.  As in CPython's scanner the mapping lookup fires as soon
as the key's closing parenthesis is read (so a missing key surfaces as
`KeyError` even when the conversion character after it is malformed),
and formatting proceeds left to right, stopping at the first error. -/
def interpGo (vars : Vars) : FmtMode → List Char → Except SubstError (List Char)
  | .text, [] => .ok []
  | .text, c :: rest =>
    if c = '%' then interpGo vars .afterPerc rest
    else Except.map (fun l => c :: l) (interpGo vars .text rest)
  | .afterPerc, [] => .error .badFormat
  | .afterPerc, c :: rest =>
    if c = '%' then Except.map (fun l => '%' :: l) (interpGo vars .text rest)
    else if c = '(' then interpGo vars (.inKey []) rest
    else .error .badFormat
  | .inKey _, [] => .error .badFormat
  | .inKey acc, c :: rest =>
    if c = ')' then
      match List.lookup (String.mk acc) vars with
      | none => .error (.missingVariable (String.mk acc))
      | some v => interpGo vars (.conv v) rest
    else interpGo vars (.inKey (acc ++ [c])) rest
  | .conv _, [] => .error .badFormat
  | .conv v, c :: rest =>
    if c = 's' then Except.map (fun l => v.data ++ l) (interpGo vars .text rest)
    else .error .badFormat

/-- Scanner state for collecting the referenced keys (as `FmtMode`, but
the post-key state carries no value). -/
inductive RMode where
  | text
  | afterPerc
  | inKey (acc : List Char)
  | conv

/-- The placeholder keys a template references, in the order the
`%`-formatting scanner would look them up.  Keys after the first
malformation are never looked up by the scanner and so are not
"referenced". -/
def refsGo : RMode → List Char → List String
  | .text, [] => []
  | .text, c :: rest =>
    if c = '%' then refsGo .afterPerc rest else refsGo .text rest
  | .afterPerc, [] => []
  | .afterPerc, c :: rest =>
    if c = '%' then refsGo .text rest
    else if c = '(' then refsGo (.inKey []) rest
    else []
  | .inKey _, [] => []
  | .inKey acc, c :: rest =>
    if c = ')' then String.mk acc :: refsGo .conv rest
    else refsGo (.inKey (acc ++ [c])) rest
  | .conv, [] => []
  | .conv, c :: rest => if c = 's' then refsGo .text rest else []

/-- The keys referenced by a template string. -/
def fmtRefs (t : String) : List String := refsGo .text t.data

/-- Python `s.replace("_PERC_", "%")`: left-to-right, non-overlapping. -/
def replacePerc : List Char → List Char
  | [] => []
  | '_' :: 'P' :: 'E' :: 'R' :: 'C' :: '_' :: rest => '%' :: replacePerc rest
  | c :: rest => c :: replacePerc rest

/-- Whether the token `_PERC_` occurs in the character list. -/
def hasPercTok : List Char → Bool
  | [] => false
  | '_' :: 'P' :: 'E' :: 'R' :: 'C' :: '_' :: _ => true
  | _ :: rest => hasPercTok rest

/-- workflow_runner.py lines 60-66.  `prepare_cmd` substitutes the
variables into the raw command (a `KeyError` becomes the workflow's
missing-variable failure) and only afterwards restores the `_PERC_`
escape token to a literal percent sign. -/
def prepare_cmd (raw_cmd : String) (convenience_variables : Vars) :
    Except SubstError String :=
  Except.map (fun l => String.mk (replacePerc l))
    (interpGo convenience_variables .text raw_cmd.data)

example : prepare_cmd "a_PERC_b" [] = .ok "a%b" := by rfl
example : prepare_cmd "echo %(x)s" [("x", "hi")] = .ok "echo hi" := by rfl
example : prepare_cmd "echo %(x)s" [] = .error (.missingVariable "x") := by rfl
example : runCmd ⟨"hello world\n", "", 0⟩ = .ok "hello world" := by rfl

/-- The directives of a workflow configuration that the runner reads.
`cmds` holds the numbered command directives, keyed by the command
number (the ini key is the decimal string `str(n)`); the remaining
fields are the optional named directives, `none` meaning the directive
is absent from the ini file (`ConfigException` on `get`). -/
structure Config where
  cmds : List (Int × String)
  always_run_cmds : Option String
  premature_end_cmd : Option String
  zk_queue_path : Option String
  max_num_chars_cmd_output : Option String
deriving DecidableEq

/-- `workflow_config.has_option(str(n))` (workflow_runner.py line 81). -/
def hasOption (cfg : Config) (n : Int) : Bool :=
  (List.lookup n cfg.cmds).isSome

/-- `workflow_config.get(str(n))` (workflow_runner.py line 194). -/
def lookupCmd (cfg : Config) (n : Int) : Option String :=
  List.lookup n cfg.cmds

/-- Python `value.split(',')` at the character level: split at every
comma, keeping empty pieces. -/
def splitCommaAux : List Char → List Char → List (List Char)
  | [], acc => [acc.reverse]
  | c :: rest, acc =>
    if c = ',' then acc.reverse :: splitCommaAux rest []
    else splitCommaAux rest (c :: acc)

/-- dsconfig.py `_getList` (lines 121-126):
`[x.strip() for x in config_value.split(',')]`. -/
def getList (v : String) : List String :=
  (splitCommaAux v.data []).map (fun l => pyStrip (String.mk l))

/-- The value of a decimal digit run, `none` on a non-digit. -/
def digitsVal : List Char → Nat → Option Nat
  | [], acc => some acc
  | c :: rest, acc =>
    if c.isDigit then digitsVal rest (acc * 10 + (c.toNat - 48)) else none

/-- Python `int(s)` on an already-stripped string: an optional sign
followed by at least one decimal digit; `none` models `ValueError`. -/
def pyInt? (s : String) : Option Int :=
  match s.data with
  | [] => none
  | '-' :: [] => none
  | '-' :: d :: ds => Option.map (fun n => -(n : Int)) (digitsVal (d :: ds) 0)
  | '+' :: [] => none
  | '+' :: d :: ds => Option.map (fun n => (n : Int)) (digitsVal (d :: ds) 0)
  | ds => Option.map (fun n => (n : Int)) (digitsVal ds 0)

/-- workflow_runner.py line 75:
`[int(x) for x in workflow_config.get('always_run_cmds', 'list')]`;
`none` models the uncaught `ValueError` on a malformed entry. -/
def parseIntList (v : String) : Option (List Int) :=
  (getList v).mapM pyInt?

/-- workflow_runner.py lines 73-77: when resuming past command one, read
the optional `always_run_cmds` directive.  An absent directive raises
`ConfigException`, which is caught (`.ok []`); a malformed integer
raises `ValueError`, which is not caught and crashes the process
(`.error ()`). -/
def parsedAlways (cfg : Config) (starting_cmd_num : Int) : Except Unit (List Int) :=
  if 1 < starting_cmd_num then
    match cfg.always_run_cmds with
    | none => .ok []
    | some v =>
      match parseIntList v with
      | none => .error ()
      | some l => .ok l
  else .ok []

/-- The contiguous probe of workflow_runner.py lines 79-87: starting at
`n`, while `has_option(str(n))` holds append `n` (unless already listed)
and move to `n + 1`; stop at the first missing number.  The loop is
given explicit fuel; `cfg.cmds.length + 1` steps always suffice, since
each successful probe consumes a distinct key of `cfg.cmds`
(`probeLoop_fuel_stable` below makes this precise). -/
def probeLoop (cfg : Config) (acc : List Int) (n : Int) : Nat → List Int
  | 0 => acc
  | fuel + 1 =>
    if hasOption cfg n then
      probeLoop cfg (if n ∈ acc then acc else acc ++ [n]) (n + 1) fuel
    else acc

/-- Outcome of the command sequencer: the process crashes on a malformed
`always_run_cmds` entry (uncaught `ValueError`), exits via
`WFConfigException("No workflow commands found.")` on an empty list, and
otherwise yields the sorted command numbers. -/
inductive SeqResult where
  | crash
  | noCommands
  | plan (nums : List Int)
deriving DecidableEq

/-- workflow_runner.py lines 68-94, `get_workflow_cmd_num`: prepend the
optional always-run list (only when resuming past command one), append
the contiguous run probed from the starting number, fail when empty,
sort ascending.  The lazy generator is materialised as the full list. -/
def get_workflow_cmd_num (starting_cmd_num : Int) (cfg : Config) : SeqResult :=
  match parsedAlways cfg starting_cmd_num with
  | .error _ => .crash
  | .ok base =>
    let probed := probeLoop cfg base starting_cmd_num (cfg.cmds.length + 1)
    if probed.isEmpty then .noCommands
    else .plan (probed.insertionSort (· ≤ ·))

/-- Python slice `s[0:k]` where `k` may be `None` (no bound) or negative
(counting from the end), as used with `num_chars_to_log`. -/
def pySlice0 (cap : Option Int) (s : String) : String :=
  match cap with
  | none => s
  | some k =>
    if k < 0 then String.mk (s.data.take (s.data.length - k.natAbs))
    else String.mk (s.data.take k.toNat)

/-- workflow_runner.py lines 150-154: `int(get('max_num_chars_cmd_output'))`
with `ValueError` and `ConfigException` both giving `None` (no cap). -/
def capOf (cfg : Config) : Option Int :=
  match cfg.max_num_chars_cmd_output with
  | none => none
  | some v => pyInt? v

/-- The log line `"#%d >> %s ..."` echoed for a command (line 196). -/
def cmdHeader (n : Int) (s : String) : String :=
  "#" ++ toString n ++ " >> " ++ s ++ " ..."

/-- The variable name `'cmd_%d_output' % n` (line 210). -/
def cmdOutputKey (n : Int) : String := "cmd_" ++ toString n ++ "_output"

/-- The mutable state of the engine loop: the variable mapping and the
human-readable log emitted so far. -/
structure EngineState where
  vars : Vars
  log : List String
deriving DecidableEq

/-- Outcome of the engine loop: completion, a failure at command `n`
routed to `WorkflowException` (carrying the message and the state at the
moment of failure), or a crash at command `n` from the uncaught
`ConfigException` of `get(str(n))` on a number absent from the
configuration (reachable through `always_run_cmds` entries). -/
inductive RunResult where
  | completed (st : EngineState)
  | failedAt (n : Int) (emsg : String) (st : EngineState)
  | crashed (n : Int) (st : EngineState)
deriving DecidableEq

/-- The engine state an outcome carries. -/
def RunResult.state : RunResult → EngineState
  | .completed st => st
  | .failedAt _ _ st => st
  | .crashed _ st => st

/-- workflow_runner.py lines 192-210, the command loop: for each planned
number, fetch the raw template, substitute variables, echo the (possibly
truncated) command line, execute, echo the (possibly truncated) output,
and store the full output under `cmd_<n>_output`.  A substitution or
execution failure stops the loop (`WorkflowException`).  The runtime
report line is timing-dependent and is not part of the modelled log. -/
def runLoop (cfg : Config) (ex : String → ExecResult) (cap : Option Int) :
    List Int → EngineState → RunResult
  | [], st => .completed st
  | n :: rest, st =>
    match lookupCmd cfg n with
    | none => .crashed n st
    | some raw =>
      match prepare_cmd raw st.vars with
      | .error e =>
        .failedAt n
          (match e with
           | .missingVariable name =>
             "Required variable not found during execution " ++ name
           | .badFormat => "format error") st
      | .ok cmd =>
        let st1 : EngineState := ⟨st.vars, st.log ++ [cmdHeader n (pySlice0 cap cmd)]⟩
        match runCmd (ex cmd) with
        | .error emsg => .failedAt n emsg st1
        | .ok out =>
          runLoop cfg ex cap rest
            ⟨updateVar st1.vars (cmdOutputKey n) out, st1.log ++ [pySlice0 cap out]⟩

/-- workflow_runner.py line 44: the zookeeper binary path. -/
def zookeeper_bin : String := "/usr/local/bin/zk"

/-- The gate command `"%s qpoll %s" % (zookeeper_bin, path)` (line 185). -/
def zkCmd (path : String) : String := zookeeper_bin ++ " qpoll " ++ path

/-- workflow_runner.py lines 174-188: the pre-loop queue gate.  A missing
`zk_queue_path` directive exits via `WFConfigException`; an empty value
skips the gate; otherwise the queue is polled once and the stripped
result is stored under `zk_queue_value`, any failure exiting via
`WFConfigException`.  `.error` is the exiting message. -/
def zkStep (ex : String → ExecResult) (cfg : Config) (vars : Vars) :
    Except String Vars :=
  match cfg.zk_queue_path with
  | none =>
    .error "ZK queue path directive not found in config file (can be empty but must be defined)"
  | some path =>
    if path.length ≠ 0 then
      match runCmd (ex (zkCmd path)) with
      | .error _ => .error ("Nothing in the workflow queue " ++ path)
      | .ok v => .ok (updateVar vars "zk_queue_value" v)
    else .ok vars

/-- workflow_runner.py lines 166-171: the initial variable mapping.  The
wall-clock derived values are external inputs of the model. -/
def convVars (nowS yrMn yrMnDy curdate : String) : Vars :=
  [("now", nowS), ("YrMn", yrMn), ("YrMnDy", yrMnDy), ("curdate", curdate)]

/-- The `sys.exit` message of `WorkflowException` (line 121). -/
def prematureMsg (command_num : Int) (emsg : String) : String :=
  "Workflow ended prematurely, #" ++ toString command_num
  ++ " command error: " ++ emsg

/-- How the process terminates out of `WorkflowException.__init__`:
`exitMsg` is `sys.exit(msg)` (message printed, status 1), `uncaught` is
an exception propagating out of the handler itself (traceback, status 1,
the original message never printed), and `recursedCleanup` marks the
re-raise of `WorkflowException` from inside `prepare_cmd` while
preparing the cleanup command (unbounded recursion in the source). -/
inductive TermOutcome where
  | exitMsg (msg : String)
  | uncaught (emsg : String)
  | recursedCleanup (name : String)
deriving DecidableEq

/-- workflow_runner.py lines 111-121, `WorkflowException.__init__`: try
to read, substitute and run the optional `premature_end_cmd`; only
`ConfigException` (the directive being absent) is caught, after which
`sys.exit` reports the original failure.  An error raised by `runCmd`
on the cleanup command is a plain `Exception` and is not caught, so it
propagates instead of reaching the `sys.exit` line; a missing variable
in the cleanup template re-raises `WorkflowException` itself. -/
def workflowException (cfg : Config) (ex : String → ExecResult)
    (command_num : Int) (emsg : String) (convenience_vars : Vars) : TermOutcome :=
  match cfg.premature_end_cmd with
  | none => .exitMsg (prematureMsg command_num emsg)
  | some raw =>
    match prepare_cmd raw convenience_vars with
    | .error (.missingVariable name) => .recursedCleanup name
    | .error .badFormat => .uncaught "format error"
    | .ok cleanup =>
      match runCmd (ex cleanup) with
      | .error ce => .uncaught ce
      | .ok _ => .exitMsg (prematureMsg command_num emsg)

/-- Python `sys.exit(arg)`: exit status 0 when the argument is `None`,
status 1 when it is a (printed) message string. -/
def sysExitCode : Option String → Nat
  | none => 0
  | some _ => 1

/-- workflow_runner.py lines 46-49: `print_usage` prints the usage text
and returns `None` (the Python return value of `print`-ing functions). -/
def print_usage : Option String := none

/-- How an invocation leaves the argument-validation prologue. -/
inductive CliOutcome where
  | proceed (cfgFile : String) (startNum : Int)
  | exitCode (code : Nat)
deriving DecidableEq

/-- workflow_runner.py lines 128-145: accept two or three `argv` entries
(program name included); otherwise `WFConfigException(print_usage())`,
i.e. `sys.exit(None)`.  With an acceptable count, a failing config load
exits via `WFConfigException(str(e))`; a third argument is parsed with
`int()`, an uncaught `ValueError` (modelled as exit status 1) on a
non-integer.  `configLoads` abstracts whether `DSConfig` finds and reads
the ini file. -/
def cliValidate (argv : List String) (configLoads : Bool) : CliOutcome :=
  if 1 < argv.length ∧ argv.length < 4 then
    if configLoads then
      if argv.length = 3 then
        match pyInt? (argv.getD 2 "") with
        | some k => .proceed (argv.getD 1 "") k
        | none => .exitCode 1
      else .proceed (argv.getD 1 "") 1
    else .exitCode (sysExitCode (some "config init failed"))
  else .exitCode (sysExitCode print_usage)

example : cliValidate ["workflow_runner.py"] true = .exitCode 0 := by decide
example : cliValidate ["workflow_runner.py", "wf.ini"] true
    = .proceed "wf.ini" 1 := by decide
example : cliValidate ["workflow_runner.py", "wf.ini", "4"] true
    = .proceed "wf.ini" 4 := by decide
example : get_workflow_cmd_num 2
    ⟨[(1, "a"), (2, "b"), (3, "c")], some "1,99", none, some "", none⟩
    = .plan [1, 2, 3, 99] := by decide
example : get_workflow_cmd_num 1
    ⟨[(1, "a"), (2, "b"), (3, "c")], none, none, some "", none⟩
    = .plan [1, 2, 3] := by decide
example : get_workflow_cmd_num 5
    ⟨[(1, "a"), (2, "b"), (3, "c")], none, none, some "", none⟩
    = .noCommands := by decide

lemma lookup_updateVar_self (vars : Vars) (k v : String) :
    List.lookup k (updateVar vars k v) = some v := by
  induction vars with
  | nil => simp [updateVar, List.lookup]
  | cons p rest ih =>
    obtain ⟨a, b⟩ := p
    by_cases h : a = k
    · subst h; simp [updateVar, List.lookup]
    · have h1 : (a == k) = false := beq_eq_false_iff_ne.mpr h
      have h2 : (k == a) = false := beq_eq_false_iff_ne.mpr (Ne.symm h)
      simp [updateVar, h, List.lookup, ih, h1, h2]

lemma lookup_updateVar_isSome (vars : Vars) (k k' v : String)
    (h : (List.lookup k' vars).isSome = true) :
    (List.lookup k' (updateVar vars k v)).isSome = true := by
  induction vars with
  | nil => simp [List.lookup] at h
  | cons p rest ih =>
    obtain ⟨a, b⟩ := p
    by_cases hak : a = k
    · subst hak
      simp only [updateVar, if_pos rfl]
      cases hq : (k' == a)
      · simp only [List.lookup, hq] at h ⊢
        exact h
      · simp [List.lookup, hq]
    · simp only [updateVar, if_neg hak]
      cases hq : (k' == a)
      · simp only [List.lookup, hq] at h ⊢
        exact ih h
      · simp [List.lookup, hq]

lemma lookup_isSome_iff {α β : Type} [DecidableEq α] (l : List (α × β)) (a : α) :
    (List.lookup a l).isSome = true ↔ a ∈ l.map Prod.fst := by
  induction l with
  | nil => simp [List.lookup]
  | cons p t ih =>
    obtain ⟨k, v⟩ := p
    by_cases h : k = a
    · subst h; simp [List.lookup]
    · have h1 : (a == k) = false := beq_eq_false_iff_ne.mpr (Ne.symm h)
      have h2 : ¬ a = k := Ne.symm h
      simp [List.lookup, h1, ih, h, h2]

lemma head?_dropWhile (p : Char → Bool) :
    ∀ (l : List Char) (c : Char), (List.dropWhile p l).head? = some c → p c = false := by
  intro l
  induction l with
  | nil => simp [List.dropWhile]
  | cons a t ih =>
    intro c h
    rw [List.dropWhile_cons] at h
    split at h
    · exact ih c h
    · simp only [List.head?_cons, Option.some.injEq] at h
      subst h
      simp_all

lemma stripList_getLast (l : List Char) (c : Char)
    (h : (stripList l).getLast? = some c) : isPyWhite c = false := by
  unfold stripList at h
  rw [List.getLast?_reverse] at h
  exact head?_dropWhile _ _ _ h

lemma runCmd_ok (r : ExecResult) (out : String) (h : runCmd r = .ok out) :
    out = pyStrip r.stdout := by
  unfold runCmd at h
  split at h
  · simp at h
  · injection h with h
    exact h.symm

lemma pyStrip_getLast_not_newline (s : String) :
    (pyStrip s).data.getLast? ≠ some '\n' := by
  intro h
  have := stripList_getLast s.data '\n' h
  simp [isPyWhite] at this

lemma interpGo_no_perc (vars : Vars) :
    ∀ l : List Char, (∀ c ∈ l, ¬ c = '%') → interpGo vars .text l = .ok l := by
  intro l
  induction l with
  | nil => intro _; rfl
  | cons a t ih =>
    intro h
    have ha : ¬ a = '%' := h a (by simp)
    have ht := ih (fun c hc => h c (List.mem_cons_of_mem _ hc))
    simp [interpGo, ha, ht, Except.map]

lemma replacePerc_self (l : List Char) (h : hasPercTok l = false) :
    replacePerc l = l := by
  induction l using replacePerc.induct
  · rfl
  · simp [hasPercTok] at h
  · simp_all [replacePerc, hasPercTok]

/-- The first key of `names` that is absent from `vars`, in order. -/
def findAbsent (vars : Vars) (names : List String) : Option String :=
  names.find? (fun nm => (List.lookup nm vars).isNone)

lemma interpGo_missing (vars : Vars) : ∀ l : List Char,
    (∀ n, findAbsent vars (refsGo .text l) = some n →
      interpGo vars .text l = .error (.missingVariable n))
    ∧ (∀ n, findAbsent vars (refsGo .afterPerc l) = some n →
      interpGo vars .afterPerc l = .error (.missingVariable n))
    ∧ (∀ acc n, findAbsent vars (refsGo (.inKey acc) l) = some n →
      interpGo vars (.inKey acc) l = .error (.missingVariable n))
    ∧ (∀ v n, findAbsent vars (refsGo .conv l) = some n →
      interpGo vars (.conv v) l = .error (.missingVariable n)) := by
  intro l
  induction l with
  | nil =>
    refine ⟨?_, ?_, ?_, ?_⟩
    · intro n h; simp [refsGo, findAbsent] at h
    · intro n h; simp [refsGo, findAbsent] at h
    · intro acc n h; simp [refsGo, findAbsent] at h
    · intro v n h; simp [refsGo, findAbsent] at h
  | cons c t ih =>
    obtain ⟨iht, ihp, ihk, ihc⟩ := ih
    refine ⟨?_, ?_, ?_, ?_⟩
    · intro n h
      by_cases hc : c = '%'
      · subst hc
        have hr : refsGo .text ('%' :: t) = refsGo .afterPerc t := by simp [refsGo]
        have hi : interpGo vars .text ('%' :: t) = interpGo vars .afterPerc t := by
          simp [interpGo]
        rw [hr] at h
        rw [hi]
        exact ihp n h
      · have hr : refsGo .text (c :: t) = refsGo .text t := by simp [refsGo, hc]
        have hi : interpGo vars .text (c :: t)
            = Except.map (fun l => c :: l) (interpGo vars .text t) := by
          simp [interpGo, hc]
        rw [hr] at h
        rw [hi, iht n h]
        rfl
    · intro n h
      by_cases hc : c = '%'
      · subst hc
        have hr : refsGo .afterPerc ('%' :: t) = refsGo .text t := by simp [refsGo]
        have hi : interpGo vars .afterPerc ('%' :: t)
            = Except.map (fun l => '%' :: l) (interpGo vars .text t) := by
          simp [interpGo]
        rw [hr] at h
        rw [hi, iht n h]
        rfl
      · by_cases hp : c = '('
        · subst hp
          have hr : refsGo .afterPerc ('(' :: t) = refsGo (.inKey []) t := by
            simp [refsGo]
          have hi : interpGo vars .afterPerc ('(' :: t)
              = interpGo vars (.inKey []) t := by
            simp [interpGo]
          rw [hr] at h
          rw [hi]
          exact ihk [] n h
        · have hr : refsGo .afterPerc (c :: t) = [] := by simp [refsGo, hc, hp]
          rw [hr] at h
          simp [findAbsent] at h
    · intro acc n h
      by_cases hc : c = ')'
      · subst hc
        have hr : refsGo (.inKey acc) (')' :: t)
            = String.mk acc :: refsGo .conv t := by simp [refsGo]
        rw [hr] at h
        cases hk : List.lookup (String.mk acc) vars with
        | none =>
          have hfa : findAbsent vars (String.mk acc :: refsGo .conv t)
              = some (String.mk acc) := by
            unfold findAbsent
            rw [List.find?_cons_of_pos _ (by simp [hk])]
          rw [hfa] at h
          injection h with h
          subst h
          simp [interpGo, hk]
        | some v =>
          have hfa : findAbsent vars (String.mk acc :: refsGo .conv t)
              = findAbsent vars (refsGo .conv t) := by
            unfold findAbsent
            rw [List.find?_cons_of_neg _ (by simp [hk])]
          rw [hfa] at h
          have hi : interpGo vars (.inKey acc) (')' :: t)
              = interpGo vars (.conv v) t := by
            simp [interpGo, hk]
          rw [hi]
          exact ihc v n h
      · have hr : refsGo (.inKey acc) (c :: t) = refsGo (.inKey (acc ++ [c])) t := by
          simp [refsGo, hc]
        have hi : interpGo vars (.inKey acc) (c :: t)
            = interpGo vars (.inKey (acc ++ [c])) t := by
          simp [interpGo, hc]
        rw [hr] at h
        rw [hi]
        exact ihk (acc ++ [c]) n h
    · intro v n h
      by_cases hc : c = 's'
      · subst hc
        have hr : refsGo .conv ('s' :: t) = refsGo .text t := by simp [refsGo]
        have hi : interpGo vars (.conv v) ('s' :: t)
            = Except.map (fun l => v.data ++ l) (interpGo vars .text t) := by
          simp [interpGo]
        rw [hr] at h
        rw [hi, iht n h]
        rfl
      · have hr : refsGo .conv (c :: t) = [] := by simp [refsGo, hc]
        rw [hr] at h
        simp [findAbsent] at h

/-- The ascending run `[a, a+1, ..., a+n-1]`. -/
def intRange (a : Int) : Nat → List Int
  | 0 => []
  | n + 1 => a :: intRange (a + 1) n

lemma mem_intRange : ∀ (n : Nat) (a m : Int), m ∈ intRange a n ↔ a ≤ m ∧ m < a + n := by
  intro n
  induction n with
  | zero => intro a m; simp [intRange]
  | succ k ih => intro a m; simp [intRange, ih]; omega

lemma intRange_length : ∀ (n : Nat) (a : Int), (intRange a n).length = n := by
  intro n
  induction n with
  | zero => intro a; rfl
  | succ k ih => intro a; simp [intRange, ih]

lemma intRange_nodup : ∀ (n : Nat) (a : Int), (intRange a n).Nodup := by
  intro n
  induction n with
  | zero => intro a; simp [intRange]
  | succ k ih =>
    intro a
    refine List.nodup_cons.mpr ⟨fun h => ?_, ih (a + 1)⟩
    have := (mem_intRange k (a + 1) a).mp h
    omega

lemma intRange_sorted : ∀ (n : Nat) (a : Int), List.Sorted (· ≤ ·) (intRange a n) := by
  intro n
  induction n with
  | zero => intro a; simp [intRange]
  | succ k ih =>
    intro a
    refine List.sorted_cons.mpr ⟨fun b hb => ?_, ih (a + 1)⟩
    have := (mem_intRange k (a + 1) b).mp hb
    omega

lemma probeLoop_dense (cfg : Config) (K : Int)
    (H : ∀ m : Int, hasOption cfg m = true ↔ 1 ≤ m ∧ m ≤ K) :
    ∀ (fuel : Nat) (n : Int) (acc : List Int), 1 ≤ n → n ≤ K + 1 →
      (∀ m ∈ acc, m < n) → (K + 1 - n).toNat < fuel →
      probeLoop cfg acc n fuel = acc ++ intRange n (K + 1 - n).toNat := by
  intro fuel
  induction fuel with
  | zero => intro n acc _ _ _ h4; omega
  | succ f ihf =>
    intro n acc h1 h2 h3 hfuel
    by_cases hn : n ≤ K
    · have hopt : hasOption cfg n = true := (H n).mpr ⟨h1, hn⟩
      have hnotmem : n ∉ acc := fun hm => absurd (h3 n hm) (by omega)
      have hstep : probeLoop cfg acc n (f + 1)
          = probeLoop cfg (acc ++ [n]) (n + 1) f := by
        simp [probeLoop, hopt, hnotmem]
      have hmem : ∀ m ∈ acc ++ [n], m < n + 1 := by
        intro m hm
        rcases List.mem_append.mp hm with hm | hm
        · have := h3 m hm; omega
        · simp at hm; omega
      rw [hstep, ihf (n + 1) (acc ++ [n]) (by omega) (by omega) hmem (by omega)]
      rw [List.append_assoc]
      congr 1
      have hlen : (K + 1 - n).toNat = (K + 1 - (n + 1)).toNat + 1 := by omega
      rw [hlen]
      simp [intRange]
    · have hn' : n = K + 1 := by omega
      have hopt : hasOption cfg n = false := by
        cases hv : hasOption cfg n
        · rfl
        · exact absurd ((H n).mp hv) (by omega)
      have hz : (K + 1 - n).toNat = 0 := by omega
      simp [probeLoop, hopt, hz, intRange]

lemma probeLoop_sound (cfg : Config) (S : Int) (base : List Int) :
    ∀ (fuel : Nat) (n : Int) (acc : List Int), S ≤ n →
      (∀ k, S ≤ k → k < n → hasOption cfg k = true) →
      (∀ m ∈ acc, m ∈ base ∨ (S ≤ m ∧ ∀ k, S ≤ k → k ≤ m → hasOption cfg k = true)) →
      ∀ m ∈ probeLoop cfg acc n fuel,
        m ∈ base ∨ (S ≤ m ∧ ∀ k, S ≤ k → k ≤ m → hasOption cfg k = true) := by
  intro fuel
  induction fuel with
  | zero =>
    intro n acc _ _ hacc m hm
    exact hacc m (by simpa [probeLoop] using hm)
  | succ f ihf =>
    intro n acc hSn hcontig hacc m hm
    by_cases hopt : hasOption cfg n = true
    · have hstep : probeLoop cfg acc n (f + 1)
          = probeLoop cfg (if n ∈ acc then acc else acc ++ [n]) (n + 1) f := by
        simp [probeLoop, hopt]
      rw [hstep] at hm
      refine ihf (n + 1) _ (by omega) ?_ ?_ m hm
      · intro k hk1 hk2
        by_cases hkn : k < n
        · exact hcontig k hk1 hkn
        · have : k = n := by omega
          subst this
          exact hopt
      · intro m' hm'
        by_cases hmem : n ∈ acc
        · rw [if_pos hmem] at hm'
          exact hacc m' hm'
        · rw [if_neg hmem] at hm'
          rcases List.mem_append.mp hm' with hm' | hm'
          · exact hacc m' hm'
          · simp at hm'
            subst hm'
            refine Or.inr ⟨hSn, fun k hk1 hk2 => ?_⟩
            by_cases hkn : k < m'
            · exact hcontig k hk1 hkn
            · have : k = m' := by omega
              subst this
              exact hopt
    · have hstep : probeLoop cfg acc n (f + 1) = acc := by
        simp [probeLoop]
        intro hv
        exact absurd hv hopt
      rw [hstep] at hm
      exact hacc m hm

lemma probeLoop_congr_fuel (cfg : Config) :
    ∀ (j : Nat) (n : Int) (acc : List Int) (fuel fuel' : Nat),
      j < fuel → j < fuel' → hasOption cfg (n + j) = false →
      probeLoop cfg acc n fuel = probeLoop cfg acc n fuel' := by
  intro j
  induction j with
  | zero =>
    intro n acc fuel fuel' hf hf' hopt
    obtain ⟨f, rfl⟩ : ∃ f, fuel = f + 1 := ⟨fuel - 1, by omega⟩
    obtain ⟨f', rfl⟩ : ∃ f', fuel' = f' + 1 := ⟨fuel' - 1, by omega⟩
    simp only [Nat.cast_zero, add_zero] at hopt
    simp [probeLoop, hopt]
  | succ k ih =>
    intro n acc fuel fuel' hf hf' hopt
    obtain ⟨f, rfl⟩ : ∃ f, fuel = f + 1 := ⟨fuel - 1, by omega⟩
    obtain ⟨f', rfl⟩ : ∃ f', fuel' = f' + 1 := ⟨fuel' - 1, by omega⟩
    by_cases hn : hasOption cfg n = true
    · have hshift : (n + 1) + (k : Int) = n + ((k + 1 : Nat) : Int) := by
        push_cast
        ring
      have hrec := ih (n + 1) (if n ∈ acc then acc else acc ++ [n]) f f'
        (by omega) (by omega) (by rw [hshift]; exact hopt)
      have h1 : probeLoop cfg acc n (f + 1)
          = probeLoop cfg (if n ∈ acc then acc else acc ++ [n]) (n + 1) f := by
        simp [probeLoop, hn]
      have h2 : probeLoop cfg acc n (f' + 1)
          = probeLoop cfg (if n ∈ acc then acc else acc ++ [n]) (n + 1) f' := by
        simp [probeLoop, hn]
      rw [h1, h2, hrec]
    · have hn' : hasOption cfg n = false := by
        cases hv : hasOption cfg n
        · rfl
        · exact absurd hv hn
      simp [probeLoop, hn']

lemma exists_probe_gap (cfg : Config) (n : Int) :
    ∃ j : Nat, j ≤ cfg.cmds.length ∧ hasOption cfg (n + j) = false := by
  by_contra hcon
  push_neg at hcon
  have hall : ∀ j : Nat, j ≤ cfg.cmds.length → hasOption cfg (n + j) = true := by
    intro j hj
    cases hv : hasOption cfg (n + (j : Int)) with
    | false => exact absurd hv (hcon j hj)
    | true => rfl
  have hsub : ∀ m ∈ intRange n (cfg.cmds.length + 1), m ∈ cfg.cmds.map Prod.fst := by
    intro m hm
    have hb := (mem_intRange (cfg.cmds.length + 1) n m).mp hm
    obtain ⟨j, hj, rfl⟩ : ∃ j : Nat, j ≤ cfg.cmds.length ∧ m = n + j :=
      ⟨(m - n).toNat, by omega, by omega⟩
    have hv := hall j hj
    unfold hasOption at hv
    exact (lookup_isSome_iff _ _).mp hv
  have hcard1 : (intRange n (cfg.cmds.length + 1)).toFinset.card
      = cfg.cmds.length + 1 := by
    rw [List.toFinset_card_of_nodup (intRange_nodup _ _), intRange_length]
  have hsub' : (intRange n (cfg.cmds.length + 1)).toFinset
      ⊆ (cfg.cmds.map Prod.fst).toFinset := by
    intro x hx
    rw [List.mem_toFinset] at hx ⊢
    exact hsub x hx
  have hcard2 : (cfg.cmds.map Prod.fst).toFinset.card ≤ cfg.cmds.length := by
    calc (cfg.cmds.map Prod.fst).toFinset.card
        ≤ (cfg.cmds.map Prod.fst).length := List.toFinset_card_le _
      _ = cfg.cmds.length := by simp
  have := Finset.card_le_card hsub'
  omega

/-- The fuel `cfg.cmds.length + 1` used in `get_workflow_cmd_num` is
always enough: any larger fuel computes the same probe, because within
`cfg.cmds.length + 1` consecutive numbers at least one is missing from
the configuration (they would otherwise be that many distinct keys of
`cfg.cmds`). -/
lemma probeLoop_fuel_stable (cfg : Config) (acc : List Int) (n : Int)
    (fuel : Nat) (h : cfg.cmds.length < fuel) :
    probeLoop cfg acc n fuel = probeLoop cfg acc n (cfg.cmds.length + 1) := by
  obtain ⟨j, hj, hopt⟩ := exists_probe_gap cfg n
  exact probeLoop_congr_fuel cfg j n acc fuel (cfg.cmds.length + 1)
    (by omega) (by omega) hopt

lemma runLoop_preserves (cfg : Config) (ex : String → ExecResult) (cap : Option Int) :
    ∀ (plan : List Int) (st : EngineState) (k : String),
      (List.lookup k st.vars).isSome = true →
      (List.lookup k (RunResult.state (runLoop cfg ex cap plan st)).vars).isSome = true := by
  intro plan
  induction plan with
  | nil =>
    intro st k h
    simpa [runLoop, RunResult.state] using h
  | cons n rest ih =>
    intro st k h
    cases hlk : lookupCmd cfg n with
    | none =>
      simpa [runLoop, hlk, RunResult.state] using h
    | some raw =>
      cases hp : prepare_cmd raw st.vars with
      | error e =>
        simpa [runLoop, hlk, hp, RunResult.state] using h
      | ok cmd =>
        cases hr : runCmd (ex cmd) with
        | error emsg =>
          simpa [runLoop, hlk, hp, hr, RunResult.state] using h
        | ok out =>
          simp only [runLoop, hlk, hp, hr]
          exact ih _ k (lookup_updateVar_isSome _ _ _ _ h)

/-- C5: the reserved escape token is restored to a literal percent sign
only after placeholder substitution: expanding `a_PERC_b` against the
empty variable mapping yields exactly `a%b`, and a restored percent is
never re-interpreted as placeholder syntax (`_PERC_(x)s` expands to the
literal `%(x)s` with no missing-variable failure for `x`). -/
theorem C5_perc_escape_after_subst :
    prepare_cmd "a_PERC_b" [] = .ok "a%b"
    ∧ prepare_cmd "_PERC_(x)s" [] = .ok "%(x)s" :=
  ⟨rfl, rfl⟩

/-- C6 counterexample: the template `a_PERC_b` contains no placeholder
token (no percent character at all, and it references no variable), yet
expansion is not the identity on it: it yields `a%b`. -/
theorem C6_counterexample :
    "a_PERC_b".data.all (fun c => c != '%') = true
    ∧ fmtRefs "a_PERC_b" = []
    ∧ prepare_cmd "a_PERC_b" [] = .ok "a%b"
    ∧ ("a%b" : String) ≠ "a_PERC_b" :=
  ⟨rfl, rfl, rfl, by decide⟩

/-- C6 amended: expansion is the identity exactly on templates that
contain no percent character and no occurrence of the escape token
`_PERC_`; the original claim fails on placeholder-free templates that
contain the escape token (or percent escapes), which are rewritten. -/
theorem C6_identity_no_perc (t : String) (v : Vars)
    (h1 : ∀ c ∈ t.data, ¬ c = '%') (h2 : hasPercTok t.data = false) :
    prepare_cmd t v = .ok t := by
  unfold prepare_cmd
  rw [interpGo_no_perc v t.data h1]
  show Except.ok (String.mk (replacePerc t.data)) = Except.ok t
  rw [replacePerc_self t.data h2]

theorem C6_witness : prepare_cmd "echo hello" [] = .ok "echo hello" :=
  C6_identity_no_perc "echo hello" [] (by decide) (by rfl)

/-- C7: a template that references a variable name absent from the
current mapping fails with a missing-variable error naming an absent
referenced variable (the first the formatting scanner reaches), and
never produces a substituted string. -/
theorem C7_missing_variable (t : String) (vars : Vars) (name : String)
    (h1 : name ∈ fmtRefs t) (h2 : List.lookup name vars = none) :
    ∃ n, n ∈ fmtRefs t ∧ List.lookup n vars = none
      ∧ prepare_cmd t vars = .error (.missingVariable n)
      ∧ ∀ s, prepare_cmd t vars ≠ .ok s := by
  have hex : (findAbsent vars (fmtRefs t)).isSome := by
    rw [findAbsent, List.find?_isSome]
    exact ⟨name, h1, by simp [h2]⟩
  obtain ⟨n, hn⟩ := Option.isSome_iff_exists.mp hex
  have hn' : List.find? (fun nm => (List.lookup nm vars).isNone) (fmtRefs t)
      = some n := hn
  have hmem := List.mem_of_find?_eq_some hn'
  have habs : (List.lookup n vars).isNone = true := by
    have hgen : ∀ (l : List String) (a : String),
        List.find? (fun nm => (List.lookup nm vars).isNone) l = some a →
        (List.lookup a vars).isNone = true := by
      intro l
      induction l with
      | nil => intro a h; simp [List.find?] at h
      | cons x tl ih =>
        intro a h
        simp only [List.find?] at h
        cases hx : (List.lookup x vars).isNone with
        | true =>
          simp [hx] at h
          subst h
          exact hx
        | false =>
          simp [hx] at h
          exact ih a h
    exact hgen _ n hn'
  have hfa : findAbsent vars (refsGo .text t.data) = some n := hn
  have herr := (interpGo_missing vars t.data).1 n hfa
  refine ⟨n, hmem, Option.isNone_iff_eq_none.mp habs, ?_, ?_⟩
  · unfold prepare_cmd
    rw [herr]
    rfl
  · intro sub hs
    unfold prepare_cmd at hs
    rw [herr] at hs
    simp [Except.map] at hs

theorem C7_witness :
    ∃ n, n ∈ fmtRefs "cat %(cmd_2_output)s"
      ∧ List.lookup n [("now", "t"), ("cmd_1_output", "x")] = none
      ∧ prepare_cmd "cat %(cmd_2_output)s" [("now", "t"), ("cmd_1_output", "x")]
          = .error (.missingVariable n)
      ∧ ∀ sub, prepare_cmd "cat %(cmd_2_output)s" [("now", "t"), ("cmd_1_output", "x")]
          ≠ .ok sub :=
  C7_missing_variable _ _ "cmd_2_output" (by decide) (by rfl)

/-- C1 counterexample: with `premature_end_cmd = "cleanupcmd"` configured
and an environment in which the cleanup command itself fails (exit code
1), the handler never reaches its `sys.exit` line: the cleanup failure
propagates out of `WorkflowException.__init__` (only `ConfigException`
is caught) and the process terminates with the cleanup's error, not with
the original failure message naming command 3. -/
theorem C1_counterexample :
    workflowException ⟨[(1, "boomcmd")], none, some "cleanupcmd", some "", none⟩
        (fun _ => ⟨"", "", 1⟩) 3 "boom" []
      = .uncaught "\nUnexpected return code or value: 1, "
    ∧ ∀ msg, TermOutcome.uncaught "\nUnexpected return code or value: 1, "
        ≠ .exitMsg msg := by
  refine ⟨by rfl, fun msg h => TermOutcome.noConfusion h⟩

/-- C1 amended: the cleanup command is attempted at most once; an absent
`premature_end_cmd` directive is silently skipped and the process exits
with the original failure message naming the failing command, likewise
when the cleanup command runs successfully — but when the cleanup
command's own execution fails, that failure is NOT skipped: the process
terminates with the cleanup's error instead of the original message. -/
theorem C1_cleanup_failure_behavior (cfg : Config) (ex : String → ExecResult)
    (n : Int) (emsg : String) (vars : Vars) :
    (cfg.premature_end_cmd = none →
      workflowException cfg ex n emsg vars = .exitMsg (prematureMsg n emsg))
    ∧ (∀ raw cleanup, cfg.premature_end_cmd = some raw →
        prepare_cmd raw vars = .ok cleanup →
        (∀ out, runCmd (ex cleanup) = .ok out →
          workflowException cfg ex n emsg vars = .exitMsg (prematureMsg n emsg))
        ∧ (∀ ce, runCmd (ex cleanup) = .error ce →
          workflowException cfg ex n emsg vars = .uncaught ce)) := by
  constructor
  · intro h
    simp [workflowException, h]
  · intro raw cleanup hdir hprep
    constructor
    · intro out hrun
      simp [workflowException, hdir, hprep, hrun]
    · intro ce hrun
      simp [workflowException, hdir, hprep, hrun]

theorem C1_witness :
    workflowException ⟨[], none, some "c", some "", none⟩
        (fun _ => ⟨"done\n", "", 0⟩) 5 "err" []
      = .exitMsg (prematureMsg 5 "err") :=
  ((C1_cleanup_failure_behavior _ _ 5 "err" []).2 "c" "c" rfl (by rfl)).1
    "done" (by rfl)

/-- C2 counterexample: with commands `{1, 2, 3}`, starting number 2 and
`always_run_cmds = "1,99"`, the produced plan is `[1, 2, 3, 99]`: it
contains 99, which is greater than 3, the last number of the contiguous
run probed from 2 (4 is missing).  Override entries beyond the probe
boundary are not filtered out. -/
theorem C2_counterexample :
    get_workflow_cmd_num 2
        ⟨[(1, "a"), (2, "b"), (3, "c")], some "1,99", none, some "", none⟩
      = .plan [1, 2, 3, 99]
    ∧ hasOption ⟨[(1, "a"), (2, "b"), (3, "c")], some "1,99", none, some "", none⟩ 3
      = true
    ∧ hasOption ⟨[(1, "a"), (2, "b"), (3, "c")], some "1,99", none, some "", none⟩ 4
      = false
    ∧ (99 : Int) ∈ ([1, 2, 3, 99] : List Int)
    ∧ ¬ (99 : Int) ≤ 3 := by
  refine ⟨by decide, by rfl, by rfl, by decide, by decide⟩

/-- C2 amended: every number of the plan either appears in the parsed
always-run override list or lies in the contiguous run probed from the
starting number (every number from the starting number up to it is
present in the configuration).  The probe itself never passes the first
gap, but — contrary to the original claim — override numbers beyond the
probe boundary are included in the plan. -/
theorem C2_plan_membership (cfg : Config) (S : Int) (base : List Int)
    (l : List Int) (hb : parsedAlways cfg S = .ok base)
    (hp : get_workflow_cmd_num S cfg = .plan l) :
    ∀ m ∈ l, m ∈ base ∨ (S ≤ m ∧ ∀ k, S ≤ k → k ≤ m → hasOption cfg k = true) := by
  intro m hm
  unfold get_workflow_cmd_num at hp
  rw [hb] at hp
  dsimp only at hp
  by_cases he : (probeLoop cfg base S (cfg.cmds.length + 1)).isEmpty
  · rw [if_pos he] at hp
    simp at hp
  · rw [if_neg he] at hp
    injection hp with hp
    subst hp
    have hmem : m ∈ probeLoop cfg base S (cfg.cmds.length + 1) := by
      have hperm := List.perm_insertionSort (· ≤ ·)
        (probeLoop cfg base S (cfg.cmds.length + 1))
      exact hperm.mem_iff.mp hm
    exact probeLoop_sound cfg S base _ S base (le_refl S)
      (fun k hk1 hk2 => by omega)
      (fun m' hm' => Or.inl hm') m hmem

theorem C2_witness :
    (99 : Int) ∈ ([1, 99] : List Int)
    ∨ ((2 : Int) ≤ 99 ∧ ∀ k : Int, 2 ≤ k → k ≤ 99 →
        hasOption ⟨[(1, "a"), (2, "b"), (3, "c")], some "1,99", none, some "", none⟩ k
          = true) :=
  C2_plan_membership _ 2 [1, 99] [1, 2, 3, 99] (by rfl) (by decide) 99 (by decide)

/-- C3: invoking with no user argument (or with more than two) makes the
source run `raise WFConfigException(print_usage())`; `print_usage`
returns `None`, so this is `sys.exit(None)` — exit status 0, not the
claimed non-zero status.  An unreadable configuration file does exit
with status 1, and status 0 therefore does not imply full completion. -/
theorem C3_wrong_argc_exits_zero :
    cliValidate ["workflow_runner.py"] true = .exitCode 0
    ∧ cliValidate ["workflow_runner.py", "a", "b", "c"] true = .exitCode 0
    ∧ cliValidate ["workflow_runner.py", "wf.ini"] false = .exitCode 1
    ∧ sysExitCode print_usage = 0 := by
  refine ⟨by decide, by decide, by decide, rfl⟩

/-- C4: for a configuration whose numbered directives are exactly the
dense set `{1..K}` with `K ≥ S ≥ 1` and no always_run_cmds directive,
the plan is exactly `[S, S+1, ..., K]` (the ascending run of length
`K + 1 - S`), the probe stopping at the first missing number `K + 1`. -/
theorem C4_dense_plan (S K : Int) (cfg : Config)
    (hS : 1 ≤ S) (hK : S ≤ K)
    (halways : cfg.always_run_cmds = none)
    (hdense : (cfg.cmds.map Prod.fst).Perm (intRange 1 K.toNat)) :
    get_workflow_cmd_num S cfg = .plan (intRange S (K + 1 - S).toNat) := by
  have hK1 : (1 : Int) ≤ K := le_trans hS hK
  have H : ∀ m : Int, hasOption cfg m = true ↔ 1 ≤ m ∧ m ≤ K := by
    intro m
    unfold hasOption
    rw [lookup_isSome_iff, hdense.mem_iff, mem_intRange]
    omega
  have hlen : cfg.cmds.length = K.toNat := by
    have h1 := hdense.length_eq
    rw [intRange_length] at h1
    simpa using h1
  have hbase : parsedAlways cfg S = .ok [] := by
    unfold parsedAlways
    rw [halways]
    by_cases h : 1 < S <;> simp [h]
  have hprobe : probeLoop cfg [] S (cfg.cmds.length + 1)
      = intRange S (K + 1 - S).toNat := by
    have hd := probeLoop_dense cfg K H (cfg.cmds.length + 1) S []
      hS (by omega) (by intro m hm; simp at hm) (by omega)
    simpa using hd
  have hne : (intRange S (K + 1 - S).toNat).isEmpty = false := by
    obtain ⟨j, hj⟩ : ∃ j, (K + 1 - S).toNat = j + 1 := ⟨(K - S).toNat, by omega⟩
    rw [hj]
    simp [intRange]
  unfold get_workflow_cmd_num
  rw [hbase]
  dsimp only
  rw [hprobe, hne]
  simp [(intRange_sorted _ _).insertionSort_eq]

theorem C4_witness :
    get_workflow_cmd_num 2 ⟨[(1, "a"), (2, "b"), (3, "c")], none, none, some "", none⟩
      = .plan (intRange 2 ((3 : Int) + 1 - 2).toNat) :=
  C4_dense_plan 2 3 _ (by decide) (by decide) rfl (by decide)

/-- C8: the optional display cap truncates only what is logged.  For a
planned command `n` whose template prepares to `cmd` and whose execution
succeeds with (stripped) output `out`, the loop emits the cap-truncated
command echo and the cap-truncated output to the log but stores the full
`out` under `cmd_n_output`; an absent cap truncates nothing. -/
theorem C8_truncation_display_only (cfg : Config) (ex : String → ExecResult)
    (cap : Option Int) (n : Int) (rest : List Int) (vars : Vars)
    (log : List String) (raw cmd out : String)
    (hlk : lookupCmd cfg n = some raw)
    (hprep : prepare_cmd raw vars = .ok cmd)
    (hrun : runCmd (ex cmd) = .ok out) :
    runLoop cfg ex cap (n :: rest) ⟨vars, log⟩
      = runLoop cfg ex cap rest
          ⟨updateVar vars (cmdOutputKey n) out,
           (log ++ [cmdHeader n (pySlice0 cap cmd)]) ++ [pySlice0 cap out]⟩
    ∧ List.lookup (cmdOutputKey n) (updateVar vars (cmdOutputKey n) out) = some out
    ∧ (cap = none → pySlice0 cap out = out) := by
  refine ⟨?_, lookup_updateVar_self _ _ _, ?_⟩
  · simp [runLoop, hlk, hprep, hrun]
  · intro h
    subst h
    rfl

example : pySlice0 (some 5) "hello world" = "hello" := by rfl
example : pySlice0 none "hello world" = "hello world" := by rfl

theorem C8_witness :
    runLoop ⟨[(1, "echo hello world")], none, none, some "", some "5"⟩
        (fun _ => ⟨"hello world\n", "", 0⟩) (some 5) ([1] : List Int) ⟨[], []⟩
      = runLoop ⟨[(1, "echo hello world")], none, none, some "", some "5"⟩
          (fun _ => ⟨"hello world\n", "", 0⟩) (some 5) []
          ⟨updateVar [] (cmdOutputKey 1) "hello world",
           (([] : List String) ++ [cmdHeader 1 (pySlice0 (some 5) "echo hello world")])
             ++ [pySlice0 (some 5) "hello world"]⟩
    ∧ List.lookup (cmdOutputKey 1) (updateVar [] (cmdOutputKey 1) "hello world")
      = some "hello world"
    ∧ ((some 5 : Option Int) = none →
        pySlice0 (some 5) "hello world" = "hello world") :=
  C8_truncation_display_only _ _ (some 5) 1 [] [] [] "echo hello world"
    "echo hello world" "hello world" (by rfl) (by rfl) (by rfl)

/-- C9: the variable mapping grows monotonically.  The zookeeper gate
step and the whole command loop (hence, by instantiation at any suffix
of the plan, every individual loop step) preserve every entry already
present: a key bound before either operation is still bound afterwards,
in every outcome. -/
theorem C9_vars_monotone (cfg : Config) (ex : String → ExecResult)
    (cap : Option Int) (plan : List Int) (vars vars' : Vars)
    (log : List String) (k : String) :
    (zkStep ex cfg vars = .ok vars' →
      (List.lookup k vars).isSome = true → (List.lookup k vars').isSome = true)
    ∧ ((List.lookup k vars).isSome = true →
      (List.lookup k
        (RunResult.state (runLoop cfg ex cap plan ⟨vars, log⟩)).vars).isSome = true) := by
  constructor
  · intro hzk h
    unfold zkStep at hzk
    cases hpath : cfg.zk_queue_path with
    | none =>
      rw [hpath] at hzk
      simp at hzk
    | some path =>
      rw [hpath] at hzk
      dsimp only at hzk
      by_cases hlen : path.length ≠ 0
      · rw [if_pos hlen] at hzk
        cases hr : runCmd (ex (zkCmd path)) with
        | error e =>
          rw [hr] at hzk
          simp at hzk
        | ok v =>
          rw [hr] at hzk
          injection hzk with hzk
          subst hzk
          exact lookup_updateVar_isSome _ _ _ _ h
      · rw [if_neg hlen] at hzk
        injection hzk with hzk
        subst hzk
        exact h
  · intro h
    exact runLoop_preserves cfg ex cap plan ⟨vars, log⟩ k h

theorem C9_witness :
    (List.lookup "now" (RunResult.state
      (runLoop ⟨[(1, "echo hi")], none, none, some "", none⟩
        (fun _ => ⟨"hi\n", "", 0⟩) none [1]
        ⟨convVars "T" "202610" "20261012" "2026-10-12", []⟩)).vars).isSome = true :=
  (C9_vars_monotone ⟨[(1, "echo hi")], none, none, some "", none⟩
    (fun _ => ⟨"hi\n", "", 0⟩) none [1]
    (convVars "T" "202610" "20261012" "2026-10-12") [] [] "now").2 (by rfl)

/-- C10: every stored output is the command's captured stdout with
leading and trailing whitespace stripped: `runCmd` returns exactly the
stripped stdout (whose last character is never a newline), the gate step
stores the stripped stdout of the queue poll under `zk_queue_value`, and
a successful loop step stores the stripped stdout of the executed
command under `cmd_n_output`. -/
theorem C10_stripped_output (r : ExecResult) (out : String) :
    (runCmd r = .ok out → out = pyStrip r.stdout ∧ out.data.getLast? ≠ some '\n')
    ∧ (∀ (ex : String → ExecResult) (cfg : Config) (vars vars' : Vars) (path : String),
        cfg.zk_queue_path = some path → path.length ≠ 0 →
        zkStep ex cfg vars = .ok vars' →
        List.lookup "zk_queue_value" vars' = some (pyStrip (ex (zkCmd path)).stdout))
    ∧ (∀ (cfg : Config) (ex : String → ExecResult) (cap : Option Int) (n : Int)
        (rest : List Int) (vars : Vars) (log : List String) (raw cmd : String),
        lookupCmd cfg n = some raw → prepare_cmd raw vars = .ok cmd →
        runCmd (ex cmd) = .ok out →
        List.lookup (cmdOutputKey n) (updateVar vars (cmdOutputKey n) out)
          = some (pyStrip (ex cmd).stdout)
        ∧ runLoop cfg ex cap (n :: rest) ⟨vars, log⟩
          = runLoop cfg ex cap rest
              ⟨updateVar vars (cmdOutputKey n) out,
               (log ++ [cmdHeader n (pySlice0 cap cmd)]) ++ [pySlice0 cap out]⟩) := by
  refine ⟨?_, ?_, ?_⟩
  · intro h
    have heq := runCmd_ok r out h
    refine ⟨heq, ?_⟩
    rw [heq]
    exact pyStrip_getLast_not_newline r.stdout
  · intro ex cfg vars vars' path hpath hlen hzk
    unfold zkStep at hzk
    rw [hpath] at hzk
    dsimp only at hzk
    rw [if_pos hlen] at hzk
    cases hr : runCmd (ex (zkCmd path)) with
    | error e =>
      rw [hr] at hzk
      simp at hzk
    | ok v =>
      rw [hr] at hzk
      injection hzk with hzk
      subst hzk
      rw [lookup_updateVar_self, runCmd_ok _ _ hr]
  · intro cfg ex cap n rest vars log raw cmd hlk hprep hrun
    constructor
    · rw [lookup_updateVar_self, runCmd_ok _ _ hrun]
    · simp [runLoop, hlk, hprep, hrun]

theorem C10_witness :
    ("hello" : String) = pyStrip (ExecResult.mk "hello\n" "" 0).stdout
    ∧ ("hello" : String).data.getLast? ≠ some '\n' :=
  (C10_stripped_output ⟨"hello\n", "", 0⟩ "hello").1 (by rfl)
